import Mathlib

/-!
Shallow embedding of the node-graph canvas subsystem (FlowCanvas component)
of the GameStoryDesigner repository, together with proofs of the claimed
properties.  JavaScript numbers are modelled as exact rationals; node and
connection identifiers are strings; the React state of the component is
modelled as an explicit `CanvasState` record, and each pointer-event handler
becomes a state-transition function translated line by line from the source.
-/

namespace FlowCanvas

/-- World-space position of a node, as stored in the `positions` record. -/
structure NodePosition where
  x : ℚ
  y : ℚ
  deriving DecidableEq, Repr

/-- Directed connection between two node identifiers, with a label. -/
structure FlowConnection where
  id : String
  sourceId : String
  targetId : String
  label : String
  deriving DecidableEq, Repr

/-- Canvas view transform: pan offset `(x, y)` and zoom `scale`. -/
structure Transform where
  x : ℚ
  y : ℚ
  scale : ℚ
  deriving DecidableEq, Repr

/-- In-progress connection drag: origin node, live pointer position, and,
when the drag was started from the unplug handle of an existing connection,
that connection's identifier. -/
structure DragLine where
  sourceId : String
  currentX : ℚ
  currentY : ℚ
  isReconnectingId : Option String
  deriving DecidableEq, Repr

/-- Marquee selection rectangle, anchored at the pointer-down position. -/
structure SelectionRect where
  startX : ℚ
  startY : ℚ
  currentX : ℚ
  currentY : ℚ
  deriving DecidableEq, Repr

/-- Projection of a world point to screen space: `p * scale + pan`
(the inline formula at the marquee hit test and the node card layout). -/
def worldToScreen (t : Transform) (p : NodePosition) : NodePosition :=
  ⟨p.x * t.scale + t.x, p.y * t.scale + t.y⟩

/-- Projection of a screen point to world space: `(p - pan) / scale`
(the inline `canvasX`/`canvasY` formula of `handleWheel`). -/
def screenToWorld (t : Transform) (p : NodePosition) : NodePosition :=
  ⟨(p.x - t.x) / t.scale, (p.y - t.y) / t.scale⟩

/-- The `handleWheel` handler: `zoomSpeed = 0.001`,
`delta = -deltaY * zoomSpeed`, scale clamped to `[0.1, 5]`, and the pan
recomputed so the world point under the cursor stays under the cursor.
`mouseX`/`mouseY` are the cursor position relative to the container. -/
def handleWheel (t : Transform) (mouseX mouseY deltaY : ℚ) : Transform :=
  let delta := -deltaY * (1 / 1000)
  let newScale := min (max (t.scale + delta) (1 / 10)) 5
  let canvasX := (mouseX - t.x) / t.scale
  let canvasY := (mouseY - t.y) / t.scale
  ⟨mouseX - canvasX * newScale, mouseY - canvasY * newScale, newScale⟩

/-- C5: for every point `p` and every transform whose scale lies in
`[0.1, 5]` (hence is nonzero), `screenToWorld (worldToScreen p) = p`
exactly, under exact rational arithmetic. -/
theorem screenToWorld_worldToScreen (t : Transform) (p : NodePosition)
    (hs : 1 / 10 ≤ t.scale ∧ t.scale ≤ 5) :
    screenToWorld t (worldToScreen t p) = p := by
  have hne : t.scale ≠ 0 := by
    have : (0 : ℚ) < 1 / 10 := by norm_num
    exact ne_of_gt (lt_of_lt_of_le this hs.1)
  simp only [screenToWorld, worldToScreen]
  cases p with
  | mk px py =>
    simp only [NodePosition.mk.injEq]
    constructor <;> field_simp

/-- Witness for C5 at a concrete transform and point. -/
theorem screenToWorld_worldToScreen_witness :
    screenToWorld ⟨5, 7, 2⟩ (worldToScreen ⟨5, 7, 2⟩ ⟨3, 4⟩) = ⟨3, 4⟩ :=
  screenToWorld_worldToScreen ⟨5, 7, 2⟩ ⟨3, 4⟩ ⟨by norm_num, by norm_num⟩

/-- C4: for every wheel event at container-relative cursor position
`(mx, my)` with wheel delta `dY`, starting from a transform with scale in
`[0.1, 5]`: the resulting scale is `clamp(scale + (-dY) * 0.001, 0.1, 5)`,
the resulting pan satisfies `pan' = m - (m - pan) / scale * newScale` on
both axes, and the world point under the cursor before the zoom maps back
to the cursor after the zoom (exactly, in rational arithmetic). -/
theorem handleWheel_spec (t : Transform) (mx my dY : ℚ)
    (hs : 1 / 10 ≤ t.scale ∧ t.scale ≤ 5) :
    (handleWheel t mx my dY).scale
        = min (max (t.scale + -dY * (1 / 1000)) (1 / 10)) 5
    ∧ (handleWheel t mx my dY).x
        = mx - (mx - t.x) / t.scale * (handleWheel t mx my dY).scale
    ∧ (handleWheel t mx my dY).y
        = my - (my - t.y) / t.scale * (handleWheel t mx my dY).scale
    ∧ worldToScreen (handleWheel t mx my dY) (screenToWorld t ⟨mx, my⟩)
        = ⟨mx, my⟩ := by
  refine ⟨rfl, rfl, rfl, ?_⟩
  simp only [handleWheel, worldToScreen, screenToWorld, NodePosition.mk.injEq]
  constructor <;> ring

/-- Witness for C4 at a concrete transform, cursor position and delta. -/
theorem handleWheel_spec_witness :
    worldToScreen (handleWheel ⟨5, 7, 2⟩ 100 50 (-100))
        (screenToWorld ⟨5, 7, 2⟩ ⟨100, 50⟩) = ⟨100, 50⟩ :=
  (handleWheel_spec ⟨5, 7, 2⟩ 100 50 (-100) ⟨by norm_num, by norm_num⟩).2.2.2

/-- Grid auto-placement for the node at 0-based list index `idx`:
`(100 + (idx % 3) * 350, 100 + (idx / 3) * 250)` (line 62 of the canvas). -/
def gridPos (idx : ℕ) : NodePosition :=
  ⟨100 + (idx % 3 : ℕ) * 350, 100 + (idx / 3 : ℕ) * 250⟩

/-- The body of the `ensurePositions` effect: walk the puzzle list with its
running index, assigning `gridPos` to every identifier that has no entry in
the accumulated record yet (the `forEach` of lines 60-65). -/
def ensurePositionsFrom (puzzles : List String) (idx : ℕ)
    (positions : String → Option NodePosition) : String → Option NodePosition :=
  match puzzles with
  | [] => positions
  | pid :: rest =>
    let positions' :=
      match positions pid with
      | some _ => positions
      | none => fun q => if q = pid then some (gridPos idx) else positions q
    ensurePositionsFrom rest (idx + 1) positions'

/-- The `ensurePositions` effect over the external node list (lines 57-70). -/
def ensurePositions (puzzles : List String)
    (positions : String → Option NodePosition) : String → Option NodePosition :=
  ensurePositionsFrom puzzles 0 positions

/-- An existing entry is never overwritten by the auto-placement walk. -/
theorem ensurePositionsFrom_preserve (puzzles : List String) (idx : ℕ)
    (positions : String → Option NodePosition) (pid : String) (p : NodePosition)
    (h : positions pid = some p) :
    ensurePositionsFrom puzzles idx positions pid = some p := by
  induction puzzles generalizing idx positions with
  | nil => exact h
  | cons q rest ih =>
    simp only [ensurePositionsFrom]
    cases hq : positions q with
    | some _ => exact ih (idx + 1) positions h
    | none =>
      apply ih
      by_cases hpq : pid = q
      · rw [hpq] at h; rw [h] at hq; cases hq
      · simpa [hpq] using h

/-- Every listed identifier has an entry after the auto-placement walk. -/
theorem ensurePositionsFrom_total (puzzles : List String) (idx : ℕ)
    (positions : String → Option NodePosition) (pid : String)
    (h : pid ∈ puzzles) :
    (ensurePositionsFrom puzzles idx positions pid).isSome := by
  induction puzzles generalizing idx positions with
  | nil => cases h
  | cons q rest ih =>
    simp only [ensurePositionsFrom]
    rcases List.mem_cons.mp h with hq | hrest
    · subst hq
      cases hp : positions pid with
      | some v =>
        rw [ensurePositionsFrom_preserve rest (idx + 1) _ pid v hp]
        rfl
      | none =>
        have : (fun q => if q = pid then some (gridPos idx) else positions q) pid
            = some (gridPos idx) := by simp
        rw [ensurePositionsFrom_preserve rest (idx + 1) _ pid (gridPos idx) this]
        rfl
    · cases positions q with
      | some _ => exact ih (idx + 1) positions hrest
      | none => exact ih (idx + 1) _ hrest

/-- On a duplicate-free list, the identifier at relative index `k` that had
no prior entry receives exactly `gridPos (idx + k)`. -/
theorem ensurePositionsFrom_grid (puzzles : List String) (idx k : ℕ)
    (positions : String → Option NodePosition) (pid : String)
    (hnd : puzzles.Nodup) (hk : puzzles.get? k = some pid)
    (h : positions pid = none) :
    ensurePositionsFrom puzzles idx positions pid = some (gridPos (idx + k)) := by
  induction puzzles generalizing idx k positions with
  | nil => cases hk
  | cons q rest ih =>
    rcases List.nodup_cons.mp hnd with ⟨hqnot, hrestnd⟩
    simp only [ensurePositionsFrom]
    cases k with
    | zero =>
      have hq : q = pid := by simpa using hk
      subst hq
      rw [h]
      have hupd : (fun r => if r = q then some (gridPos idx) else positions r) q
          = some (gridPos idx) := by simp
      rw [ensurePositionsFrom_preserve rest (idx + 1) _ q (gridPos idx) hupd]
      simp
    | succ k' =>
      have hk' : rest.get? k' = some pid := by simpa using hk
      have hpidrest : pid ∈ rest := List.get?_mem hk'
      have hpq : pid ≠ q := fun he => hqnot (he ▸ hpidrest)
      have harith : idx + (k' + 1) = (idx + 1) + k' := by omega
      rw [harith]
      cases hq : positions q with
      | some _ => exact ih (idx + 1) k' positions hrestnd hk' h
      | none =>
        apply ih (idx + 1) k' _ hrestnd hk'
        simp [hpq, h]

/-- C2: over a duplicate-free external node list, `ensurePositions`
assigns to every identifier at 0-based index `k` that had no prior entry
exactly the grid position `(100 + (k % 3) * 350, 100 + (k / 3) * 250)`,
gives every listed identifier an entry, and never overwrites an entry that
already existed. -/
theorem ensurePositions_spec (puzzles : List String)
    (positions : String → Option NodePosition) (hnd : puzzles.Nodup) :
    (∀ k pid, puzzles.get? k = some pid → positions pid = none →
        ensurePositions puzzles positions pid = some (gridPos k))
    ∧ (∀ pid ∈ puzzles, (ensurePositions puzzles positions pid).isSome)
    ∧ (∀ pid p, positions pid = some p →
        ensurePositions puzzles positions pid = some p) := by
  refine ⟨fun k pid hk h => ?_, fun pid h => ?_, fun pid p h => ?_⟩
  · have := ensurePositionsFrom_grid puzzles 0 k positions pid hnd hk h
    simpa [ensurePositions] using this
  · exact ensurePositionsFrom_total puzzles 0 positions pid h
  · exact ensurePositionsFrom_preserve puzzles 0 positions pid p h

/-- Witness for C2: the three-node list of the end-to-end scenario, with no
prior positions, receives positions `n1:(100,100)`, `n2:(450,100)`,
`n3:(800,100)`. -/
theorem ensurePositions_spec_witness :
    ensurePositions ["n1", "n2", "n3"] (fun _ => none) "n1" = some ⟨100, 100⟩
    ∧ ensurePositions ["n1", "n2", "n3"] (fun _ => none) "n2" = some ⟨450, 100⟩
    ∧ ensurePositions ["n1", "n2", "n3"] (fun _ => none) "n3" = some ⟨800, 100⟩ := by
  have h := (ensurePositions_spec ["n1", "n2", "n3"] (fun _ => none) (by decide)).1
  refine ⟨?_, ?_, ?_⟩
  · have := h 0 "n1" rfl rfl
    rw [this]
    norm_num [gridPos]
  · have := h 1 "n2" rfl rfl
    rw [this]
    norm_num [gridPos]
  · have := h 2 "n3" rfl rfl
    rw [this]
    norm_num [gridPos]

/-- The duplicate test of `handleSocketMouseUp` (line 252): does some
connection already carry the ordered pair `(sourceId, targetId)`. -/
def hasPair (conns : List FlowConnection) (sourceId targetId : String) : Bool :=
  conns.any fun c => c.sourceId == sourceId && c.targetId == targetId

/-- The connection-add operation realised inside `handleSocketMouseUp`
(lines 246-266): rejected when source equals target (the
`dragLine.sourceId !== id` guard) or when the ordered pair already exists;
otherwise a connection with the freshly generated identifier and empty
label is appended. -/
def addConnection (conns : List FlowConnection)
    (sourceId targetId freshId : String) : List FlowConnection :=
  if sourceId = targetId then conns
  else if hasPair conns sourceId targetId then conns
  else conns ++ [⟨freshId, sourceId, targetId, ""⟩]

/-- The `removeConnection` handler (lines 278-282): filter by identifier. -/
def removeConnection (conns : List FlowConnection) (id : String) :
    List FlowConnection :=
  conns.filter fun c => c.id != id

/-- The `updateConnectionLabel` handler (lines 284-288): map by identifier. -/
def updateConnectionLabel (conns : List FlowConnection) (id label : String) :
    List FlowConnection :=
  conns.map fun c => if c.id = id then { c with label := label } else c

/-- A false duplicate test means no member carries the pair. -/
theorem hasPair_eq_false_iff (conns : List FlowConnection) (a b : String) :
    hasPair conns a b = false
      ↔ ∀ c ∈ conns, ¬(c.sourceId = a ∧ c.targetId = b) := by
  simp [hasPair, List.any_eq_false]

/-- C3: adding a connection is a silent no-op when source equals target or
when the ordered pair already exists (retaining the existing connections,
labels included); otherwise exactly the one new connection with the fresh
identifier and empty label is appended, and a repeated add of the same pair
leaves exactly one connection carrying that pair. -/
theorem addConnection_spec (conns : List FlowConnection) (a b f g : String) :
    (a = b → addConnection conns a b f = conns)
    ∧ (hasPair conns a b = true → addConnection conns a b f = conns)
    ∧ (a ≠ b → hasPair conns a b = false →
        addConnection conns a b f = conns ++ [⟨f, a, b, ""⟩])
    ∧ (a ≠ b → hasPair conns a b = false →
        (addConnection (addConnection conns a b f) a b g).countP
            (fun c => c.sourceId == a && c.targetId == b) = 1) := by
  refine ⟨fun h => by simp [addConnection, h],
    fun h => by simp [addConnection, h],
    fun hne h => by simp [addConnection, hne, h],
    fun hne h => ?_⟩
  have h1 : addConnection conns a b f = conns ++ [⟨f, a, b, ""⟩] := by
    simp [addConnection, hne, h]
  have h2 : hasPair (conns ++ [⟨f, a, b, ""⟩]) a b = true := by
    simp [hasPair]
  have h3 : addConnection (conns ++ [⟨f, a, b, ""⟩]) a b g
      = conns ++ [⟨f, a, b, ""⟩] := by
    simp [addConnection, hne, h2]
  rw [h1, h3, List.countP_append]
  have hzero : conns.countP (fun c => c.sourceId == a && c.targetId == b) = 0 := by
    rw [List.countP_eq_zero]
    intro c hc
    have := (hasPair_eq_false_iff conns a b).mp h c hc
    simpa using this
  rw [hzero]
  simp

/-- Witness for C3: from the empty connection set, `add("n1","n2")` twice
appends exactly the first connection and leaves exactly one connection
carrying the pair. -/
theorem addConnection_spec_witness :
    addConnection ([] : List FlowConnection) "n1" "n2" "c1"
        = [⟨"c1", "n1", "n2", ""⟩]
    ∧ (addConnection (addConnection [] "n1" "n2" "c1") "n1" "n2" "c2").countP
        (fun c => c.sourceId == "n1" && c.targetId == "n2") = 1 := by
  have h := addConnection_spec ([] : List FlowConnection) "n1" "n2" "c1" "c2"
  exact ⟨by simpa using h.2.2.1 (by decide) rfl, h.2.2.2 (by decide) rfl⟩

/-- C9: removing or relabelling an absent identifier leaves the connection
list unchanged; for a present identifier (under the invariant that
connection identifiers are duplicate-free), removal deletes exactly that
one connection leaving all others in place, and relabelling rewrites only
that connection's label, keeping its identifier and endpoints and every
other connection unchanged. -/
theorem connection_ops_spec (conns l1 l2 : List FlowConnection)
    (c : FlowConnection) (cid lbl : String)
    (hab : ∀ c' ∈ conns, c'.id ≠ cid)
    (hnd : ((l1 ++ c :: l2).map FlowConnection.id).Nodup) :
    (removeConnection conns cid = conns
      ∧ updateConnectionLabel conns cid lbl = conns)
    ∧ (removeConnection (l1 ++ c :: l2) c.id = l1 ++ l2
      ∧ updateConnectionLabel (l1 ++ c :: l2) c.id lbl
          = l1 ++ { c with label := lbl } :: l2) := by
  have hsplit : ∀ x ∈ l1, x.id ≠ c.id ∧ ∀ y ∈ l2, y.id ≠ c.id := by
    intro x hx
    constructor
    · intro he
      rw [List.map_append, List.map_cons] at hnd
      rcases List.nodup_append.mp hnd with ⟨_, _, hdisj⟩
      exact hdisj (List.mem_map_of_mem FlowConnection.id hx)
        (by rw [he]; exact List.mem_cons_self _ _)
    · intro y hy he
      rw [List.map_append, List.map_cons] at hnd
      rcases List.nodup_append.mp hnd with ⟨_, hnd2, _⟩
      rcases List.nodup_cons.mp hnd2 with ⟨hnotin, _⟩
      exact hnotin (he ▸ List.mem_map_of_mem FlowConnection.id hy)
  have hl1 : ∀ x ∈ l1, x.id ≠ c.id := by
    intro x hx
    exact (hsplit x hx).1
  have hl2 : ∀ y ∈ l2, y.id ≠ c.id := by
    rcases hl1' : l1 with _ | ⟨x, xs⟩
    · intro y hy he
      rw [List.map_append, List.map_cons] at hnd
      rcases List.nodup_append.mp hnd with ⟨_, hnd2, _⟩
      rcases List.nodup_cons.mp hnd2 with ⟨hnotin, _⟩
      exact hnotin (he ▸ List.mem_map_of_mem FlowConnection.id hy)
    · refine (hsplit x ?_).2
      rw [hl1']
      exact List.mem_cons_self x xs
  refine ⟨⟨?_, ?_⟩, ?_, ?_⟩
  · rw [removeConnection, List.filter_eq_self]
    intro a ha
    simpa using hab a ha
  · rw [updateConnectionLabel]
    have : ∀ a ∈ conns, (if a.id = cid then { a with label := lbl } else a) = a := by
      intro a ha
      simp [hab a ha]
    rw [List.map_congr_left this]
    exact List.map_id' _
  · rw [removeConnection, List.filter_append, List.filter_cons]
    have hself : (c.id != c.id) = false := by simp
    rw [hself]
    have h1 : l1.filter (fun x => x.id != c.id) = l1 := by
      rw [List.filter_eq_self]
      intro a ha
      simpa using hl1 a ha
    have h2 : l2.filter (fun x => x.id != c.id) = l2 := by
      rw [List.filter_eq_self]
      intro a ha
      simpa using hl2 a ha
    rw [h1]
    simp [h2]
  · rw [updateConnectionLabel, List.map_append, List.map_cons]
    have h1 : l1.map (fun x => if x.id = c.id then { x with label := lbl } else x)
        = l1 := by
      have : ∀ a ∈ l1,
          (if a.id = c.id then { a with label := lbl } else a) = a := by
        intro a ha
        simp [hl1 a ha]
      rw [List.map_congr_left this]
      exact List.map_id' _
    have h2 : l2.map (fun x => if x.id = c.id then { x with label := lbl } else x)
        = l2 := by
      have : ∀ a ∈ l2,
          (if a.id = c.id then { a with label := lbl } else a) = a := by
        intro a ha
        simp [hl2 a ha]
      rw [List.map_congr_left this]
      exact List.map_id' _
    rw [h1, h2]
    simp

/-- Witness for C9 at a concrete two-connection list: operating on the
absent identifier "c9" changes nothing, removing "c1" deletes exactly the
first connection, and relabelling "c1" rewrites only its label. -/
theorem connection_ops_spec_witness :
    (removeConnection [⟨"c1", "a", "b", "x"⟩, ⟨"c2", "b", "c", "y"⟩] "c9"
        = [⟨"c1", "a", "b", "x"⟩, ⟨"c2", "b", "c", "y"⟩]
      ∧ updateConnectionLabel [⟨"c1", "a", "b", "x"⟩, ⟨"c2", "b", "c", "y"⟩] "c9" "z"
        = [⟨"c1", "a", "b", "x"⟩, ⟨"c2", "b", "c", "y"⟩])
    ∧ (removeConnection [⟨"c1", "a", "b", "x"⟩, ⟨"c2", "b", "c", "y"⟩] "c1"
        = [⟨"c2", "b", "c", "y"⟩]
      ∧ updateConnectionLabel [⟨"c1", "a", "b", "x"⟩, ⟨"c2", "b", "c", "y"⟩] "c1" "z"
        = [⟨"c1", "a", "b", "z"⟩, ⟨"c2", "b", "c", "y"⟩]) := by
  have h := connection_ops_spec
    [⟨"c1", "a", "b", "x"⟩, ⟨"c2", "b", "c", "y"⟩]
    [] [⟨"c2", "b", "c", "y"⟩] ⟨"c1", "a", "b", "x"⟩ "c9" "z"
    (by decide) (by decide)
  exact ⟨⟨h.1.1, h.1.2⟩, ⟨by simpa using h.2.1, by simpa using h.2.2⟩⟩

/-- The React state of the FlowCanvas component that the pointer handlers
read and write (lines 28-51).  Record-valued states (`positions`,
`collapsedNodes`) are modelled as functions from identifiers. -/
structure CanvasState where
  positions : String → Option NodePosition
  connections : List FlowConnection
  transform : Transform
  isPanning : Bool
  lastMouseX : ℚ
  lastMouseY : ℚ
  selectedNodeIds : List String
  selectionRect : Option SelectionRect
  draggingNodeId : Option String
  collapsedNodes : String → Bool
  dragLine : Option DragLine

/-- The `handleMouseDown` handler (lines 95-129).  `button` is the pointer
button; `onSocket`/`onControls` report whether the event target sits inside
a socket or controls sub-element (the `closest` guards); `nodeId` is the
node whose card received the event, or `none` for the background. -/
def handleMouseDown (s : CanvasState) (button : ℕ) (onSocket onControls : Bool)
    (nodeId : Option String) (clientX clientY : ℚ) : CanvasState :=
  if button = 1 then
    { s with isPanning := true, lastMouseX := clientX, lastMouseY := clientY }
  else
    match nodeId with
    | some nid =>
      if onSocket then s
      else if onControls then s
      else
        let s1 := { s with draggingNodeId := some nid }
        let s2 :=
          if nid ∈ s1.selectedNodeIds then s1
          else { s1 with selectedNodeIds := [nid] }
        { s2 with lastMouseX := clientX, lastMouseY := clientY }
    | none =>
      { s with
        selectionRect := some ⟨clientX, clientY, clientX, clientY⟩,
        selectedNodeIds := [] }

/-- The marquee recomputation of `handleMouseMove` (lines 156-178): project
every positioned node to screen space and keep those whose card box
(width 280, height 100 collapsed / 250 expanded, both scaled) overlaps the
normalised marquee rectangle under the open-interval test.
`rectLeft`/`rectTop` are the container bounding-rect origin. -/
def marqueeNewSelected (puzzles : List String) (s : CanvasState)
    (rect : SelectionRect) (rectLeft rectTop clientX clientY : ℚ) : List String :=
  let newX1 := min rect.startX clientX
  let newY1 := min rect.startY clientY
  let newX2 := max rect.startX clientX
  let newY2 := max rect.startY clientY
  puzzles.filter fun pid =>
    match s.positions pid with
    | none => false
    | some pos =>
      let screenX := pos.x * s.transform.scale + s.transform.x + rectLeft
      let screenY := pos.y * s.transform.scale + s.transform.y + rectTop
      let screenW := 280 * s.transform.scale
      let screenH := (if s.collapsedNodes pid then 100 else 250) * s.transform.scale
      decide (screenX < newX2) && decide (screenX + screenW > newX1)
        && decide (screenY < newY2) && decide (screenY + screenH > newY1)

/-- The batch node-drag update of `handleMouseMove` (lines 139-151): fold
over the selected identifiers, writing `prev[nodeId] + (dx, dy) / scale`
into the next record whenever `prev` has an entry, reading every current
position from the `prev` snapshot. -/
def dragPositionsGo (prev : String → Option NodePosition) (dx dy scale : ℚ) :
    List String → (String → Option NodePosition) → String → Option NodePosition
  | [], next => next
  | nodeId :: rest, next =>
    dragPositionsGo prev dx dy scale rest
      (match prev nodeId with
       | some currentPos =>
         fun q =>
           if q = nodeId then
             some ⟨currentPos.x + dx / scale, currentPos.y + dy / scale⟩
           else next q
       | none => next)

/-- Entry point of the batch node-drag update: start from the previous
position record itself. -/
def dragPositions (selected : List String)
    (prev : String → Option NodePosition) (dx dy scale : ℚ) :
    String → Option NodePosition :=
  dragPositionsGo prev dx dy scale selected prev

/-- The `handleMouseMove` handler (lines 131-187): panning, batch node
drag, or marquee recomputation, followed by the drag-line preview update
and the `lastMousePos` write. -/
def handleMouseMove (puzzles : List String) (rectLeft rectTop : ℚ)
    (s : CanvasState) (clientX clientY : ℚ) : CanvasState :=
  let dx := clientX - s.lastMouseX
  let dy := clientY - s.lastMouseY
  let s1 :=
    if s.isPanning then
      { s with transform :=
          ⟨s.transform.x + dx, s.transform.y + dy, s.transform.scale⟩ }
    else if s.draggingNodeId.isSome then
      { s with positions :=
          dragPositions s.selectedNodeIds s.positions dx dy s.transform.scale }
    else
      match s.selectionRect with
      | some rect =>
        { s with
          selectionRect := some { rect with currentX := clientX, currentY := clientY },
          selectedNodeIds :=
            marqueeNewSelected puzzles s rect rectLeft rectTop clientX clientY }
      | none => s
  let s2 :=
    match s1.dragLine with
    | some dl =>
      { s1 with dragLine := some { dl with currentX := clientX, currentY := clientY } }
    | none => s1
  { s2 with lastMouseX := clientX, lastMouseY := clientY }

/-- The container-level `handleMouseUp` handler (lines 189-200): stop
panning, stop node dragging, discard the marquee, and resolve a pending
drag line — removing the original connection when the drag was a
reconnect — before clearing it. -/
def handleMouseUp (s : CanvasState) : CanvasState :=
  let s1 := if s.isPanning then { s with isPanning := false } else s
  let s2 :=
    if s1.draggingNodeId.isSome then { s1 with draggingNodeId := none } else s1
  let s3 :=
    if s2.selectionRect.isSome then { s2 with selectionRect := none } else s2
  match s3.dragLine with
  | some dl =>
    let s4 :=
      match dl.isReconnectingId with
      | some rid => { s3 with connections := removeConnection s3.connections rid }
      | none => s3
    { s4 with dragLine := none }
  | none => s3

/-- The `handleSocketMouseUp` handler (lines 246-266), fired when the
pointer is released over the socket of node `targetId`.  The event
propagation is stopped, so the container `handleMouseUp` never runs on
this path. -/
def handleSocketMouseUp (s : CanvasState) (targetId : String) (isInput : Bool)
    (freshId : String) : CanvasState :=
  match s.dragLine with
  | some dl =>
    if isInput ∧ dl.sourceId ≠ targetId then
      let dup := hasPair s.connections dl.sourceId targetId
      let newConns :=
        if dup then s.connections
        else s.connections ++ [⟨freshId, dl.sourceId, targetId, ""⟩]
      { s with connections := newConns, dragLine := none }
    else s
  | none => s

/-- The `handleUnplugMouseDown` handler (lines 268-276): start a
connection drag in reconnect mode from the source of `conn`, carrying the
identifier of the connection being detached. -/
def handleUnplugMouseDown (s : CanvasState) (conn : FlowConnection)
    (clientX clientY : ℚ) : CanvasState :=
  { s with dragLine := some ⟨conn.sourceId, clientX, clientY, some conn.id⟩ }

/-- The connection list produced by a socket release agrees with the
extracted `addConnection` operation whenever a drag line is in flight. -/
theorem handleSocketMouseUp_connections (s : CanvasState) (dl : DragLine)
    (targetId freshId : String) (h : s.dragLine = some dl) :
    (handleSocketMouseUp s targetId true freshId).connections
      = addConnection s.connections dl.sourceId targetId freshId := by
  simp only [handleSocketMouseUp, h, addConnection, hasPair]
  by_cases hst : dl.sourceId = targetId
  · simp [hst]
  · simp [hst]

/-- A convenient all-default state used by concrete witnesses. -/
def baseState : CanvasState where
  positions := fun _ => none
  connections := []
  transform := ⟨0, 0, 1⟩
  isPanning := false
  lastMouseX := 0
  lastMouseY := 0
  selectedNodeIds := []
  selectionRect := none
  draggingNodeId := none
  collapsedNodes := fun _ => false
  dragLine := none

/-- Identifiers outside the dragged list keep whatever the accumulator
holds for them. -/
theorem dragPositionsGo_not_mem (prev : String → Option NodePosition)
    (dx dy scale : ℚ) (l : List String) (pid : String) (hn : pid ∉ l) :
    ∀ next, dragPositionsGo prev dx dy scale l next pid = next pid := by
  induction l with
  | nil => intro next; rfl
  | cons q rest ih =>
    intro next
    have hq : pid ≠ q := fun he => hn (he ▸ List.mem_cons_self q rest)
    have hrest : pid ∉ rest := fun hm => hn (List.mem_cons_of_mem q hm)
    simp only [dragPositionsGo]
    rw [ih hrest]
    cases prev q with
    | none => rfl
    | some _ => simp [hq]

/-- Identifiers with no entry in the snapshot are never written. -/
theorem dragPositionsGo_none (prev : String → Option NodePosition)
    (dx dy scale : ℚ) (l : List String) (pid : String)
    (h : prev pid = none) :
    ∀ next, dragPositionsGo prev dx dy scale l next pid = next pid := by
  induction l with
  | nil => intro next; rfl
  | cons q rest ih =>
    intro next
    simp only [dragPositionsGo]
    rw [ih]
    cases hq : prev q with
    | none => rfl
    | some _ =>
      have hne : pid ≠ q := fun he => by rw [he, hq] at h; cases h
      simp [hne]

/-- A dragged identifier with an entry in the snapshot ends at its snapshot
position translated by the world-space delta. -/
theorem dragPositionsGo_mem (prev : String → Option NodePosition)
    (dx dy scale : ℚ) (l : List String) (pid : String) (p : NodePosition)
    (hm : pid ∈ l) (h : prev pid = some p) :
    ∀ next, dragPositionsGo prev dx dy scale l next pid
      = some ⟨p.x + dx / scale, p.y + dy / scale⟩ := by
  induction l with
  | nil => cases hm
  | cons q rest ih =>
    intro next
    simp only [dragPositionsGo]
    by_cases hq : pid = q
    · subst hq
      rw [h]
      by_cases hrest : pid ∈ rest
      · exact ih hrest _
      · rw [dragPositionsGo_not_mem prev dx dy scale rest pid hrest]
        simp
    · have hrest : pid ∈ rest := by
        rcases List.mem_cons.mp hm with he | hm'
        · exact absurd he hq
        · exact hm'
      exact ih hrest _

/-- In node-drag mode, `handleMouseMove` rewrites the position record with
the batch-drag fold and touches nothing else of it. -/
theorem handleMouseMove_drag_positions (puzzles : List String)
    (rectLeft rectTop : ℚ) (s : CanvasState) (cx cy : ℚ)
    (hp : s.isPanning = false) (hd : s.draggingNodeId.isSome = true) :
    (handleMouseMove puzzles rectLeft rectTop s cx cy).positions
      = dragPositions s.selectedNodeIds s.positions
          (cx - s.lastMouseX) (cy - s.lastMouseY) s.transform.scale := by
  simp only [handleMouseMove, hp, hd, Bool.false_eq_true, if_false, if_true]
  cases s.dragLine <;> rfl

/-- In marquee mode, `handleMouseMove` replaces the selection with the
recomputed overlap set, whatever it previously contained. -/
theorem handleMouseMove_marquee_selected (puzzles : List String)
    (rectLeft rectTop : ℚ) (s : CanvasState) (rect : SelectionRect) (cx cy : ℚ)
    (hp : s.isPanning = false) (hd : s.draggingNodeId = none)
    (hr : s.selectionRect = some rect) :
    (handleMouseMove puzzles rectLeft rectTop s cx cy).selectedNodeIds
      = marqueeNewSelected puzzles s rect rectLeft rectTop cx cy := by
  simp only [handleMouseMove, hp, hd, hr, Option.isSome_none, Bool.false_eq_true,
    if_false]
  cases s.dragLine <;> rfl

/-- C6: on a move tick of an active marquee drag (not panning, not node
dragging, rectangle present), the new selection holds exactly the listed
nodes having a position whose screen-projected card box (width 280, height
100 or 250 by collapsed state, scaled) overlaps the normalised marquee
rectangle under the open-interval axis test; the previous selection does
not enter into it. -/
theorem marquee_move_spec (puzzles : List String) (rectLeft rectTop cx cy : ℚ)
    (s : CanvasState) (rect : SelectionRect)
    (hp : s.isPanning = false) (hd : s.draggingNodeId = none)
    (hr : s.selectionRect = some rect) :
    ∀ pid, pid ∈ (handleMouseMove puzzles rectLeft rectTop s cx cy).selectedNodeIds
      ↔ pid ∈ puzzles ∧ ∃ pos, s.positions pid = some pos
          ∧ pos.x * s.transform.scale + s.transform.x + rectLeft
              < max rect.startX cx
          ∧ pos.x * s.transform.scale + s.transform.x + rectLeft
              + 280 * s.transform.scale > min rect.startX cx
          ∧ pos.y * s.transform.scale + s.transform.y + rectTop
              < max rect.startY cy
          ∧ pos.y * s.transform.scale + s.transform.y + rectTop
              + (if s.collapsedNodes pid then (100 : ℚ) else 250)
                  * s.transform.scale > min rect.startY cy := by
  intro pid
  rw [handleMouseMove_marquee_selected puzzles rectLeft rectTop s rect cx cy hp hd hr]
  simp only [marqueeNewSelected, List.mem_filter]
  refine and_congr_right fun _ => ?_
  cases hpos : s.positions pid with
  | none => simp [hpos]
  | some pos => simp [hpos, gt_iff_lt, and_assoc]

/-- Witness for C6: with the marquee spanning (0,0)-(400,400) at identity
transform, node A at (10,10) (fully inside), node B at (350,100)
(partially overlapping) and node C at (1000,1000) (fully outside), the
recomputed selection contains A and B and not C. -/
theorem marquee_move_spec_witness :
    ("A" ∈ (handleMouseMove ["A", "B", "C"] 0 0
      { baseState with
          positions := fun pid =>
            if pid = "A" then some ⟨10, 10⟩
            else if pid = "B" then some ⟨350, 100⟩
            else if pid = "C" then some ⟨1000, 1000⟩ else none,
          selectionRect := some ⟨0, 0, 0, 0⟩ } 400 400).selectedNodeIds)
    ∧ ("B" ∈ (handleMouseMove ["A", "B", "C"] 0 0
      { baseState with
          positions := fun pid =>
            if pid = "A" then some ⟨10, 10⟩
            else if pid = "B" then some ⟨350, 100⟩
            else if pid = "C" then some ⟨1000, 1000⟩ else none,
          selectionRect := some ⟨0, 0, 0, 0⟩ } 400 400).selectedNodeIds)
    ∧ ("C" ∉ (handleMouseMove ["A", "B", "C"] 0 0
      { baseState with
          positions := fun pid =>
            if pid = "A" then some ⟨10, 10⟩
            else if pid = "B" then some ⟨350, 100⟩
            else if pid = "C" then some ⟨1000, 1000⟩ else none,
          selectionRect := some ⟨0, 0, 0, 0⟩ } 400 400).selectedNodeIds) := by
  have h := marquee_move_spec ["A", "B", "C"] 0 0 400 400
    { baseState with
        positions := fun pid =>
          if pid = "A" then some ⟨10, 10⟩
          else if pid = "B" then some ⟨350, 100⟩
          else if pid = "C" then some ⟨1000, 1000⟩ else none,
        selectionRect := some ⟨0, 0, 0, 0⟩ }
    ⟨0, 0, 0, 0⟩ rfl rfl rfl
  refine ⟨(h "A").mpr ⟨by decide, ⟨10, 10⟩, rfl, ?_, ?_, ?_, ?_⟩,
    (h "B").mpr ⟨by decide, ⟨350, 100⟩, rfl, ?_, ?_, ?_, ?_⟩,
    fun hc => ?_⟩
  · show (10 : ℚ) * 1 + 0 + 0 < max 0 400
    rw [max_eq_right (by norm_num : (0 : ℚ) ≤ 400)]; norm_num
  · show (10 : ℚ) * 1 + 0 + 0 + 280 * 1 > min 0 400
    rw [min_eq_left (by norm_num : (0 : ℚ) ≤ 400)]; norm_num
  · show (10 : ℚ) * 1 + 0 + 0 < max 0 400
    rw [max_eq_right (by norm_num : (0 : ℚ) ≤ 400)]; norm_num
  · show (10 : ℚ) * 1 + 0 + 0 + (if baseState.collapsedNodes "A" then (100 : ℚ) else 250) * 1 > min 0 400
    rw [min_eq_left (by norm_num : (0 : ℚ) ≤ 400)]; norm_num [baseState]
  · show (350 : ℚ) * 1 + 0 + 0 < max 0 400
    rw [max_eq_right (by norm_num : (0 : ℚ) ≤ 400)]; norm_num
  · show (350 : ℚ) * 1 + 0 + 0 + 280 * 1 > min 0 400
    rw [min_eq_left (by norm_num : (0 : ℚ) ≤ 400)]; norm_num
  · show (100 : ℚ) * 1 + 0 + 0 < max 0 400
    rw [max_eq_right (by norm_num : (0 : ℚ) ≤ 400)]; norm_num
  · show (100 : ℚ) * 1 + 0 + 0 + (if baseState.collapsedNodes "B" then (100 : ℚ) else 250) * 1 > min 0 400
    rw [min_eq_left (by norm_num : (0 : ℚ) ≤ 400)]; norm_num [baseState]
  · rcases ((h "C").mp hc).2 with ⟨pos, hpos, hx, _⟩
    have hpc : pos = (⟨1000, 1000⟩ : NodePosition) := by
      simpa using hpos.symm
    rw [hpc] at hx
    rw [max_eq_right (by norm_num : (0 : ℚ) ≤ 400)] at hx
    norm_num [baseState] at hx

/-- C7: on a move tick of an active node drag with screen delta
`(cx - lastMouseX, cy - lastMouseY)`, every selected identifier holding a
position entry is translated by exactly that delta divided by the current
scale, and every identifier outside the selection keeps its stored
position unchanged. -/
theorem drag_move_spec (puzzles : List String) (rectLeft rectTop cx cy : ℚ)
    (s : CanvasState) (d : String)
    (hp : s.isPanning = false) (hd : s.draggingNodeId = some d) :
    (∀ pid ∈ s.selectedNodeIds, ∀ p, s.positions pid = some p →
      (handleMouseMove puzzles rectLeft rectTop s cx cy).positions pid
        = some ⟨p.x + (cx - s.lastMouseX) / s.transform.scale,
                p.y + (cy - s.lastMouseY) / s.transform.scale⟩)
    ∧ (∀ pid, pid ∉ s.selectedNodeIds →
      (handleMouseMove puzzles rectLeft rectTop s cx cy).positions pid
        = s.positions pid) := by
  have hsome : s.draggingNodeId.isSome = true := by rw [hd]; rfl
  have hpos := handleMouseMove_drag_positions puzzles rectLeft rectTop s cx cy
    hp hsome
  constructor
  · intro pid hm p hpp
    rw [hpos]
    exact dragPositionsGo_mem s.positions _ _ _ s.selectedNodeIds pid p hm hpp
      s.positions
  · intro pid hn
    rw [hpos]
    exact dragPositionsGo_not_mem s.positions _ _ _ s.selectedNodeIds pid hn
      s.positions

/-- Witness for C7: nodes A and B selected at scale 2, a screen delta of
(4, 6) moves both by the world delta (2, 3) and leaves unselected C in
place. -/
theorem drag_move_spec_witness :
    ((handleMouseMove ["A", "B", "C"] 0 0
      { baseState with
          positions := fun pid =>
            if pid = "A" then some ⟨10, 10⟩
            else if pid = "B" then some ⟨350, 100⟩
            else if pid = "C" then some ⟨1000, 1000⟩ else none,
          transform := ⟨0, 0, 2⟩,
          selectedNodeIds := ["A", "B"],
          draggingNodeId := some "A" } 4 6).positions "A" = some ⟨12, 13⟩)
    ∧ ((handleMouseMove ["A", "B", "C"] 0 0
      { baseState with
          positions := fun pid =>
            if pid = "A" then some ⟨10, 10⟩
            else if pid = "B" then some ⟨350, 100⟩
            else if pid = "C" then some ⟨1000, 1000⟩ else none,
          transform := ⟨0, 0, 2⟩,
          selectedNodeIds := ["A", "B"],
          draggingNodeId := some "A" } 4 6).positions "B" = some ⟨352, 103⟩)
    ∧ ((handleMouseMove ["A", "B", "C"] 0 0
      { baseState with
          positions := fun pid =>
            if pid = "A" then some ⟨10, 10⟩
            else if pid = "B" then some ⟨350, 100⟩
            else if pid = "C" then some ⟨1000, 1000⟩ else none,
          transform := ⟨0, 0, 2⟩,
          selectedNodeIds := ["A", "B"],
          draggingNodeId := some "A" } 4 6).positions "C" = some ⟨1000, 1000⟩) := by
  have h := drag_move_spec ["A", "B", "C"] 0 0 4 6
    { baseState with
        positions := fun pid =>
          if pid = "A" then some ⟨10, 10⟩
          else if pid = "B" then some ⟨350, 100⟩
          else if pid = "C" then some ⟨1000, 1000⟩ else none,
        transform := ⟨0, 0, 2⟩,
        selectedNodeIds := ["A", "B"],
        draggingNodeId := some "A" } "A" rfl rfl
  refine ⟨?_, ?_, ?_⟩
  · have := h.1 "A" (by decide) ⟨10, 10⟩ rfl
    rw [this]
    norm_num [baseState]
  · have := h.1 "B" (by decide) ⟨350, 100⟩ rfl
    rw [this]
    norm_num [baseState]
  · have := h.2 "C" (by decide)
    rw [this]
    rfl

/-- C10: a node-drag move tick never changes the domain of the position
record: a selected identifier with no entry is skipped (its lookup stays
`none`) and every identifier has an entry afterwards exactly when it had
one before. -/
theorem drag_move_domain_spec (puzzles : List String)
    (rectLeft rectTop cx cy : ℚ) (s : CanvasState) (d : String)
    (hp : s.isPanning = false) (hd : s.draggingNodeId = some d) :
    ∀ pid,
      ((handleMouseMove puzzles rectLeft rectTop s cx cy).positions pid).isSome
        = (s.positions pid).isSome := by
  intro pid
  have hsome : s.draggingNodeId.isSome = true := by rw [hd]; rfl
  rw [handleMouseMove_drag_positions puzzles rectLeft rectTop s cx cy hp hsome]
  by_cases hm : pid ∈ s.selectedNodeIds
  · cases hpp : s.positions pid with
    | none =>
      rw [dragPositions,
        dragPositionsGo_none s.positions _ _ _ s.selectedNodeIds pid hpp, hpp]
    | some p =>
      rw [dragPositions,
        dragPositionsGo_mem s.positions _ _ _ s.selectedNodeIds pid p hm hpp]
      rfl
  · rw [dragPositions,
      dragPositionsGo_not_mem s.positions _ _ _ s.selectedNodeIds pid hm]

/-- Witness for C10: a selected identifier with no position entry is still
absent after a drag move tick, and the positioned identifiers stay
present. -/
theorem drag_move_domain_spec_witness :
    (((handleMouseMove ["A", "B"] 0 0
      { baseState with
          positions := fun pid => if pid = "A" then some ⟨10, 10⟩ else none,
          selectedNodeIds := ["A", "B"],
          draggingNodeId := some "A" } 4 6).positions "B").isSome = false)
    ∧ (((handleMouseMove ["A", "B"] 0 0
      { baseState with
          positions := fun pid => if pid = "A" then some ⟨10, 10⟩ else none,
          selectedNodeIds := ["A", "B"],
          draggingNodeId := some "A" } 4 6).positions "A").isSome = true) := by
  have h := drag_move_domain_spec ["A", "B"] 0 0 4 6
    { baseState with
        positions := fun pid => if pid = "A" then some ⟨10, 10⟩ else none,
        selectedNodeIds := ["A", "B"],
        draggingNodeId := some "A" } "A" rfl rfl
  exact ⟨by rw [h "B"]; rfl, by rw [h "A"]; rfl⟩

/-- C8: a pointer-down on a node's body (not the pan button, outside its
socket and controls sub-elements) replaces the selection with just that
node when it was not yet selected, and leaves the whole selection
unchanged when it already was. -/
theorem mouseDown_select_spec (s : CanvasState) (nid : String) (button : ℕ)
    (cx cy : ℚ) (hb : button ≠ 1) :
    (nid ∉ s.selectedNodeIds →
      (handleMouseDown s button false false (some nid) cx cy).selectedNodeIds
        = [nid])
    ∧ (nid ∈ s.selectedNodeIds →
      (handleMouseDown s button false false (some nid) cx cy).selectedNodeIds
        = s.selectedNodeIds) := by
  constructor
  · intro hn
    simp [handleMouseDown, hb, hn]
  · intro hm
    simp [handleMouseDown, hb, hm]

/-- Witness for C8: clicking unselected A collapses the selection to A;
clicking A when the selection is already A-and-B preserves it whole. -/
theorem mouseDown_select_spec_witness :
    ((handleMouseDown baseState 0 false false (some "A") 0 0).selectedNodeIds
        = ["A"])
    ∧ ((handleMouseDown { baseState with selectedNodeIds := ["A", "B"] }
        0 false false (some "A") 0 0).selectedNodeIds = ["A", "B"]) := by
  refine ⟨(mouseDown_select_spec baseState "A" 0 0 0 (by decide)).1 ?_,
    (mouseDown_select_spec { baseState with selectedNodeIds := ["A", "B"] }
      "A" 0 0 0 (by decide)).2 ?_⟩
  · show "A" ∉ baseState.selectedNodeIds
    simp [baseState]
  · show "A" ∈ ["A", "B"]
    simp

/-- C1, evaluated at the failing input: with the single connection
`c1 : a → b` and a reconnect drag of `c1` in flight (started from the
unplug handle), releasing over empty canvas removes `c1` and creates
nothing — but releasing over the input socket of node `c` appends the new
connection `a → c` while the original `c1 : a → b` is still present,
because `handleSocketMouseUp` stops event propagation and never removes
the detached connection.  The claim that the original connection no longer
exists after a socket release therefore fails on the code. -/
theorem reconnect_divergence :
    ((handleMouseUp (handleUnplugMouseDown
        { baseState with connections := [⟨"c1", "a", "b", ""⟩] }
        ⟨"c1", "a", "b", ""⟩ 0 0)).connections = [])
    ∧ ((handleSocketMouseUp (handleUnplugMouseDown
        { baseState with connections := [⟨"c1", "a", "b", ""⟩] }
        ⟨"c1", "a", "b", ""⟩ 0 0) "c" true "c2").connections
      = [⟨"c1", "a", "b", ""⟩, ⟨"c2", "a", "c", ""⟩])
    ∧ (⟨"c1", "a", "b", ""⟩ : FlowConnection) ∈ (handleSocketMouseUp
        (handleUnplugMouseDown
          { baseState with connections := [⟨"c1", "a", "b", ""⟩] }
          ⟨"c1", "a", "b", ""⟩ 0 0) "c" true "c2").connections := by
  refine ⟨by decide, by decide, by decide⟩

end FlowCanvas
